import Mathlib

/-!
Verification development for the `server.js` HTTP front end of the
Shit4Kiarash repository.  The definitions below are shallow embeddings of
the code in `src/server.js`: the embedded Python payout interpolator, the
chart-range loop, the `runPythonScript` process bridge, the per-endpoint
temp-file names, the script templater for the scraper endpoints, and the
benchmark endpoint's print/eval round trip.  The theorems settle the
frozen claims about that code.
-/

namespace Server

/-- The fixed benchmark table, from the `benchmarks` list embedded in every
generated Python script (`src/server.js` lines 87-96, 133-142, 195-204,
250-259).  Each entry is `(views, payout)`. -/
def benchmarks : List (ℕ × ℕ) :=
  [(10000, 45), (25000, 80), (50000, 160), (100000, 260),
   (250000, 370), (500000, 650), (1000000, 850), (5000000, 2500)]

/-- Python's built-in `round`: round half to even (banker's rounding), used
by the embedded scripts' `return round(payout_value)`. -/
noncomputable def pyRound (x : ℝ) : ℤ :=
  if Int.fract x < 1 / 2 then ⌊x⌋
  else if 1 / 2 < Int.fract x then ⌊x⌋ + 1
  else if ⌊x⌋ % 2 = 0 then ⌊x⌋ else ⌊x⌋ + 1

/-- The interpolation formula of the embedded `payout` function
(`src/server.js` lines 150-155): `p0 + log_ratio * (p1 - p0)` with
`log_ratio = (log10(views) - log10(v0)) / (log10(v1) - log10(v0))`. -/
noncomputable def segVal (v0 p0 v1 p1 w : ℕ) : ℝ :=
  (p0 : ℝ) +
    (Real.logb 10 w - Real.logb 10 v0) / (Real.logb 10 v1 - Real.logb 10 v0) *
      ((p1 : ℝ) - (p0 : ℝ))

/-- The linear scan of the embedded `payout` function
(`for i in range(len(benchmarks)-1): ... if v0 <= views <= v1: return
round(payout_value)`, `src/server.js` lines 150-156).  Falling off the end
of the loop is Python's implicit `return None`, modelled as `none`. -/
noncomputable def scanVal : List (ℕ × ℕ) → ℕ → Option ℤ
  | (v0, p0) :: (v1, p1) :: rest, w =>
      if v0 ≤ w ∧ w ≤ v1 then some (pyRound (segVal v0 p0 v1 p1 w))
      else scanVal ((v1, p1) :: rest) w
  | _, _ => none

/-- Last element of a benchmark list, modelling Python's `benchmarks[-1]`. -/
def lastPt : List (ℕ × ℕ) → ℕ × ℕ
  | [] => (0, 0)
  | [p] => p
  | _ :: q :: l => lastPt (q :: l)

/-- The embedded Python `payout` function (`src/server.js` lines 144-156):
clamp at `benchmarks[0]` and `benchmarks[-1]`, otherwise scan for the
bracketing pair and interpolate log-linearly. -/
noncomputable def payout (views : ℕ) : Option ℤ :=
  if views ≤ (benchmarks.getD 0 (0, 0)).1 then some ((benchmarks.getD 0 (0, 0)).2 : ℤ)
  else if (lastPt benchmarks).1 ≤ views then some ((lastPt benchmarks).2 : ℤ)
  else scanVal benchmarks views

/-- Well-formedness of a benchmark list: all view counts positive, views
strictly increasing, payouts non-decreasing. -/
def goodList (l : List (ℕ × ℕ)) : Prop :=
  (∀ p ∈ l, 1 ≤ p.1) ∧ List.Chain' (fun a b => a.1 < b.1 ∧ a.2 ≤ b.2) l

theorem goodList_benchmarks : goodList benchmarks := by
  constructor
  · decide
  · simp [benchmarks, List.chain'_cons, List.chain'_singleton]

theorem goodList_tail {a : ℕ × ℕ} {l : List (ℕ × ℕ)} (h : goodList (a :: l)) :
    goodList l := by
  obtain ⟨h1, h2⟩ := h
  exact ⟨fun p hp => h1 p (List.mem_cons_of_mem a hp), h2.tail⟩

/-! ### pyRound lemmas -/

theorem pyRound_ge_floor (x : ℝ) : ⌊x⌋ ≤ pyRound x := by
  unfold pyRound
  split_ifs <;> omega

theorem pyRound_le_floor_add_one (x : ℝ) : pyRound x ≤ ⌊x⌋ + 1 := by
  unfold pyRound
  split_ifs <;> omega

theorem pyRound_intCast (n : ℤ) : pyRound (n : ℝ) = n := by
  unfold pyRound
  rw [Int.fract_intCast, Int.floor_intCast]
  norm_num

theorem pyRound_natCast (n : ℕ) : pyRound (n : ℝ) = (n : ℤ) := by
  have : ((n : ℤ) : ℝ) = (n : ℝ) := by push_cast; ring
  rw [← this, pyRound_intCast]

theorem pyRound_mono {x y : ℝ} (h : x ≤ y) : pyRound x ≤ pyRound y := by
  have hf : ⌊x⌋ ≤ ⌊y⌋ := Int.floor_le_floor h
  rcases eq_or_lt_of_le hf with heq | hlt
  · have hfr : Int.fract x ≤ Int.fract y := by
      unfold Int.fract
      have : ((⌊x⌋ : ℝ)) = ((⌊y⌋ : ℝ)) := by exact_mod_cast heq
      linarith
    unfold pyRound
    rw [heq] at *
    split_ifs <;> first | omega | linarith
  · calc pyRound x ≤ ⌊x⌋ + 1 := pyRound_le_floor_add_one x
      _ ≤ ⌊y⌋ := by omega
      _ ≤ pyRound y := pyRound_ge_floor y

/-! ### segVal lemmas -/

theorem segVal_denom_pos {v0 v1 : ℕ} (hv0 : 1 ≤ v0) (hvv : v0 < v1) :
    0 < Real.logb 10 v1 - Real.logb 10 v0 := by
  have hb : (1 : ℝ) < 10 := by norm_num
  have h0 : (0 : ℝ) < v0 := by exact_mod_cast hv0
  have h01 : (v0 : ℝ) < v1 := by exact_mod_cast hvv
  exact sub_pos.2 (Real.logb_lt_logb hb h0 h01)

theorem segVal_ge_p0 {v0 p0 v1 p1 w : ℕ} (hv0 : 1 ≤ v0) (hvv : v0 < v1)
    (hp : p0 ≤ p1) (hw : v0 ≤ w) : (p0 : ℝ) ≤ segVal v0 p0 v1 p1 w := by
  have hb : (1 : ℝ) < 10 := by norm_num
  have h0 : (0 : ℝ) < v0 := by exact_mod_cast hv0
  have hw' : (v0 : ℝ) ≤ w := by exact_mod_cast hw
  have hnum : 0 ≤ Real.logb 10 w - Real.logb 10 v0 :=
    sub_nonneg.2 (Real.logb_le_logb_of_le hb h0 hw')
  have hd := segVal_denom_pos hv0 hvv
  have he : (0 : ℝ) ≤ (p1 : ℝ) - (p0 : ℝ) := by
    have : (p0 : ℝ) ≤ p1 := by exact_mod_cast hp
    linarith
  have : 0 ≤ (Real.logb 10 w - Real.logb 10 v0) /
      (Real.logb 10 v1 - Real.logb 10 v0) * ((p1 : ℝ) - (p0 : ℝ)) :=
    mul_nonneg (div_nonneg hnum hd.le) he
  unfold segVal
  linarith

theorem segVal_le_p1 {v0 p0 v1 p1 w : ℕ} (hv0 : 1 ≤ v0) (hvv : v0 < v1)
    (hp : p0 ≤ p1) (hw0 : v0 ≤ w) (hw1 : w ≤ v1) :
    segVal v0 p0 v1 p1 w ≤ (p1 : ℝ) := by
  have hb : (1 : ℝ) < 10 := by norm_num
  have h0w : (0 : ℝ) < w := by
    have : (1 : ℕ) ≤ w := le_trans hv0 hw0
    exact_mod_cast this
  have hw1' : (w : ℝ) ≤ v1 := by exact_mod_cast hw1
  have hd := segVal_denom_pos hv0 hvv
  have hnum : Real.logb 10 w - Real.logb 10 v0 ≤
      Real.logb 10 v1 - Real.logb 10 v0 := by
    have := Real.logb_le_logb_of_le hb h0w hw1'
    linarith
  have hq : (Real.logb 10 w - Real.logb 10 v0) /
      (Real.logb 10 v1 - Real.logb 10 v0) ≤ 1 := (div_le_one hd).2 hnum
  have he : (0 : ℝ) ≤ (p1 : ℝ) - (p0 : ℝ) := by
    have : (p0 : ℝ) ≤ p1 := by exact_mod_cast hp
    linarith
  have := mul_le_mul_of_nonneg_right hq he
  unfold segVal
  linarith

theorem segVal_mono {v0 p0 v1 p1 a b : ℕ} (hv0 : 1 ≤ v0) (hvv : v0 < v1)
    (hp : p0 ≤ p1) (ha : v0 ≤ a) (hab : a ≤ b) :
    segVal v0 p0 v1 p1 a ≤ segVal v0 p0 v1 p1 b := by
  have hb : (1 : ℝ) < 10 := by norm_num
  have h0a : (0 : ℝ) < a := by
    have : (1 : ℕ) ≤ a := le_trans hv0 ha
    exact_mod_cast this
  have hab' : (a : ℝ) ≤ b := by exact_mod_cast hab
  have hlog : Real.logb 10 a ≤ Real.logb 10 b :=
    Real.logb_le_logb_of_le hb h0a hab'
  have hd := segVal_denom_pos hv0 hvv
  have he : (0 : ℝ) ≤ (p1 : ℝ) - (p0 : ℝ) := by
    have : (p0 : ℝ) ≤ p1 := by exact_mod_cast hp
    linarith
  have hq : (Real.logb 10 a - Real.logb 10 v0) /
        (Real.logb 10 v1 - Real.logb 10 v0) ≤
      (Real.logb 10 b - Real.logb 10 v0) /
        (Real.logb 10 v1 - Real.logb 10 v0) := by
    apply (div_le_div_iff_of_pos_right hd).2
    linarith
  have := mul_le_mul_of_nonneg_right hq he
  unfold segVal
  linarith

/-! ### scan lemmas -/

theorem head_le_lastPt_payout (l : List (ℕ × ℕ)) : ∀ v p : ℕ,
    goodList ((v, p) :: l) → p ≤ (lastPt ((v, p) :: l)).2 := by
  induction l with
  | nil => intro v p _; exact le_refl _
  | cons hd t ih =>
      intro v p h
      obtain ⟨v1, p1⟩ := hd
      have hc : p ≤ p1 := (h.2.rel_head).2
      exact le_trans hc (ih v1 p1 (goodList_tail h))

theorem scanVal_bounds (l : List (ℕ × ℕ)) : ∀ (v0 p0 w : ℕ) (x : ℤ),
    goodList ((v0, p0) :: l) → scanVal ((v0, p0) :: l) w = some x →
    (p0 : ℤ) ≤ x ∧ x ≤ ((lastPt ((v0, p0) :: l)).2 : ℤ) := by
  induction l with
  | nil => intro v0 p0 w x _ hs; simp [scanVal] at hs
  | cons hd t ih =>
      intro v0 p0 w x hg hs
      obtain ⟨v1, p1⟩ := hd
      have hv0 : 1 ≤ v0 := hg.1 (v0, p0) (List.mem_cons_self _ _)
      have hcc := hg.2.rel_head
      simp only [scanVal] at hs
      by_cases hcond : v0 ≤ w ∧ w ≤ v1
      · rw [if_pos hcond] at hs
        have hx : x = pyRound (segVal v0 p0 v1 p1 w) := (Option.some_inj.1 hs).symm
        subst hx
        constructor
        · have h1 : (p0 : ℝ) ≤ segVal v0 p0 v1 p1 w :=
            segVal_ge_p0 hv0 hcc.1 hcc.2 hcond.1
          have := pyRound_mono h1
          rwa [pyRound_natCast] at this
        · have h1 : segVal v0 p0 v1 p1 w ≤ (p1 : ℝ) :=
            segVal_le_p1 hv0 hcc.1 hcc.2 hcond.1 hcond.2
          have h2 := pyRound_mono h1
          rw [pyRound_natCast] at h2
          have h3 : p1 ≤ (lastPt ((v1, p1) :: t)).2 :=
            head_le_lastPt_payout t v1 p1 (goodList_tail hg)
          have h3' : (p1 : ℤ) ≤ ((lastPt ((v1, p1) :: t)).2 : ℤ) := by exact_mod_cast h3
          exact le_trans h2 h3'
      · rw [if_neg hcond] at hs
        have hih := ih v1 p1 w x (goodList_tail hg) hs
        constructor
        · have : (p0 : ℤ) ≤ (p1 : ℤ) := by exact_mod_cast hcc.2
          exact le_trans this hih.1
        · exact hih.2

theorem scanVal_total (l : List (ℕ × ℕ)) : ∀ v0 p0 w : ℕ,
    goodList ((v0, p0) :: l) → l ≠ [] → v0 ≤ w →
    w ≤ (lastPt ((v0, p0) :: l)).1 →
    ∃ x, scanVal ((v0, p0) :: l) w = some x := by
  induction l with
  | nil => intro v0 p0 w _ hne _ _; exact absurd rfl hne
  | cons hd t ih =>
      intro v0 p0 w hg _ hlo hhi
      obtain ⟨v1, p1⟩ := hd
      by_cases hcond : w ≤ v1
      · exact ⟨_, by simp only [scanVal]; rw [if_pos ⟨hlo, hcond⟩]⟩
      · cases t with
        | nil => exact absurd hhi hcond
        | cons q t2 =>
            have hv1w : v1 ≤ w := le_of_lt (Nat.lt_of_not_le hcond)
            obtain ⟨x, hx⟩ := ih v1 p1 w (goodList_tail hg) (by simp) hv1w hhi
            refine ⟨x, ?_⟩
            simp only [scanVal]
            rw [if_neg fun h => hcond h.2]
            exact hx

theorem scanVal_mono (l : List (ℕ × ℕ)) : ∀ (v0 p0 a b : ℕ) (x y : ℤ),
    goodList ((v0, p0) :: l) → a ≤ b → v0 ≤ a →
    scanVal ((v0, p0) :: l) a = some x → scanVal ((v0, p0) :: l) b = some y →
    x ≤ y := by
  induction l with
  | nil => intro v0 p0 a b x y _ _ _ hsa _; simp [scanVal] at hsa
  | cons hd t ih =>
      intro v0 p0 a b x y hg hab hv0a hsa hsb
      obtain ⟨v1, p1⟩ := hd
      have hv0 : 1 ≤ v0 := hg.1 (v0, p0) (List.mem_cons_self _ _)
      have hcc := hg.2.rel_head
      simp only [scanVal] at hsa hsb
      by_cases ha1 : a ≤ v1
      · rw [if_pos ⟨hv0a, ha1⟩] at hsa
        have hx : x = pyRound (segVal v0 p0 v1 p1 a) := (Option.some_inj.1 hsa).symm
        subst hx
        by_cases hb1 : b ≤ v1
        · rw [if_pos ⟨le_trans hv0a hab, hb1⟩] at hsb
          have hy : y = pyRound (segVal v0 p0 v1 p1 b) := (Option.some_inj.1 hsb).symm
          subst hy
          exact pyRound_mono (segVal_mono hv0 hcc.1 hcc.2 hv0a hab)
        · rw [if_neg fun h => hb1 h.2] at hsb
          have hyb := (scanVal_bounds t v1 p1 b y (goodList_tail hg) hsb).1
          have h1 : segVal v0 p0 v1 p1 a ≤ (p1 : ℝ) :=
            segVal_le_p1 hv0 hcc.1 hcc.2 hv0a ha1
          have h2 := pyRound_mono h1
          rw [pyRound_natCast] at h2
          exact le_trans h2 hyb
      · have hb1 : ¬ b ≤ v1 := fun h => ha1 (le_trans hab h)
        rw [if_neg fun h => ha1 h.2] at hsa
        rw [if_neg fun h => hb1 h.2] at hsb
        exact ih v1 p1 a b x y (goodList_tail hg) hab
          (le_of_lt (Nat.lt_of_not_le ha1)) hsa hsb

/-! ### payout lemmas -/

theorem bench0 : benchmarks.getD 0 (0, 0) = (10000, 45) := rfl

theorem benchLast : lastPt benchmarks = (5000000, 2500) := rfl

theorem payout_eq (v : ℕ) :
    payout v = if v ≤ 10000 then some 45
      else if 5000000 ≤ v then some 2500 else scanVal benchmarks v := rfl

theorem payout_low {v : ℕ} (h : v ≤ 10000) : payout v = some 45 := by
  rw [payout_eq, if_pos h]

theorem payout_high {v : ℕ} (h : 5000000 ≤ v) : payout v = some 2500 := by
  have h1 : ¬ v ≤ 10000 := by omega
  rw [payout_eq, if_neg h1, if_pos h]

theorem payout_mid {v : ℕ} (h1 : 10000 < v) (h2 : v < 5000000) :
    payout v = scanVal benchmarks v := by
  have a1 : ¬ v ≤ 10000 := by omega
  have a2 : ¬ 5000000 ≤ v := by omega
  rw [payout_eq, if_neg a1, if_neg a2]

theorem benchmarks_cons :
    benchmarks = (10000, 45) ::
      [(25000, 80), (50000, 160), (100000, 260), (250000, 370),
       (500000, 650), (1000000, 850), (5000000, 2500)] := rfl

theorem scan_bounds_bench {w : ℕ} {x : ℤ} (hs : scanVal benchmarks w = some x) :
    (45 : ℤ) ≤ x ∧ x ≤ 2500 := by
  have := scanVal_bounds
      [(25000, 80), (50000, 160), (100000, 260), (250000, 370),
       (500000, 650), (1000000, 850), (5000000, 2500)]
      10000 45 w x (benchmarks_cons ▸ goodList_benchmarks) (benchmarks_cons ▸ hs)
  simpa [lastPt] using this

/-- C6: the payout function clamps at the table ends: every `views ≤ 10000`
yields `45`, every `views ≥ 5000000` yields `2500`; in particular the
boundary points `10000 → 45` and `5000000 → 2500` hold exactly. -/
theorem payout_clamps (views : ℕ) :
    (views ≤ 10000 → payout views = some 45) ∧
    (5000000 ≤ views → payout views = some 2500) :=
  ⟨fun h => payout_low h, fun h => payout_high h⟩

/-- Witness for C6 at the exact boundary points. -/
theorem payout_clamps_witness :
    (10000 ≤ 10000 ∧ payout 10000 = some 45) ∧
    (5000000 ≤ 5000000 ∧ payout 5000000 = some 2500) :=
  ⟨⟨by decide, (payout_clamps 10000).1 (by decide)⟩,
   ⟨by decide, (payout_clamps 5000000).2 (by decide)⟩⟩

/-- C7: the payout function is monotonically non-decreasing over the whole
positive-integer domain: `a ≤ b` implies `payout a ≤ payout b`. -/
theorem payout_monotone (a b : ℕ) (x y : ℤ) (ha : 1 ≤ a) (hab : a ≤ b)
    (hx : payout a = some x) (hy : payout b = some y) : x ≤ y := by
  by_cases ha1 : a ≤ 10000
  · rw [payout_low ha1] at hx
    have hx45 : x = 45 := (Option.some_inj.1 hx).symm
    subst hx45
    by_cases hb1 : b ≤ 10000
    · rw [payout_low hb1] at hy
      have := Option.some_inj.1 hy
      omega
    · by_cases hb2 : 5000000 ≤ b
      · rw [payout_high hb2] at hy
        have := Option.some_inj.1 hy
        omega
      · rw [payout_mid (by omega) (by omega)] at hy
        exact (scan_bounds_bench hy).1
  · by_cases ha2 : 5000000 ≤ a
    · have hb2 : 5000000 ≤ b := le_trans ha2 hab
      rw [payout_high ha2] at hx
      rw [payout_high hb2] at hy
      have h1 : x = 2500 := (Option.some_inj.1 hx).symm
      have h2 : y = 2500 := (Option.some_inj.1 hy).symm
      omega
    · rw [payout_mid (by omega) (by omega)] at hx
      by_cases hb2 : 5000000 ≤ b
      · rw [payout_high hb2] at hy
        have h2 : y = 2500 := (Option.some_inj.1 hy).symm
        have := (scan_bounds_bench hx).2
        omega
      · rw [payout_mid (by omega) (by omega)] at hy
        exact scanVal_mono
          [(25000, 80), (50000, 160), (100000, 260), (250000, 370),
           (500000, 650), (1000000, 850), (5000000, 2500)]
          10000 45 a b x y (benchmarks_cons ▸ goodList_benchmarks) hab
          (by omega) (benchmarks_cons ▸ hx) (benchmarks_cons ▸ hy)

/-- Witness for C7 at concrete inputs. -/
theorem payout_monotone_witness :
    (1 ≤ 2 ∧ 2 ≤ 20000000 ∧ payout 2 = some 45 ∧
      payout 20000000 = some 2500) ∧ (45 : ℤ) ≤ 2500 :=
  ⟨⟨by decide, by decide, payout_low (by decide), payout_high (by decide)⟩,
   payout_monotone 2 20000000 45 2500 (by decide) (by decide)
     (payout_low (by decide)) (payout_high (by decide))⟩

/-- C10: under the handler precondition `views ≥ 1` the embedded payout
function is total — it always returns a number (never Python's implicit
`None`) — and for every adjacent benchmark pair the log-ratio denominator
`log10(v1) - log10(v0)` is nonzero. -/
theorem payout_total (views : ℕ) (h : 1 ≤ views) :
    (∃ r, payout views = some r) ∧
    ∀ i, i + 1 < benchmarks.length →
      Real.logb 10 ((benchmarks.getD (i + 1) (0, 0)).1 : ℝ) -
        Real.logb 10 ((benchmarks.getD i (0, 0)).1 : ℝ) ≠ 0 := by
  constructor
  · by_cases h1 : views ≤ 10000
    · exact ⟨45, payout_low h1⟩
    · by_cases h2 : 5000000 ≤ views
      · exact ⟨2500, payout_high h2⟩
      · rw [payout_mid (by omega) (by omega)]
        have := scanVal_total
          [(25000, 80), (50000, 160), (100000, 260), (250000, 370),
           (500000, 650), (1000000, 850), (5000000, 2500)]
          10000 45 views (benchmarks_cons ▸ goodList_benchmarks) (by simp)
          (by omega) (by simp [lastPt]; omega)
        exact benchmarks_cons ▸ this
  · intro i hi
    have hlen : benchmarks.length = 8 := rfl
    rw [hlen] at hi
    have key : ∀ v0 v1 : ℕ, 1 ≤ v0 → v0 < v1 →
        Real.logb 10 (v1 : ℝ) - Real.logb 10 (v0 : ℝ) ≠ 0 := by
      intro v0 v1 h0 h01
      exact ne_of_gt (segVal_denom_pos h0 h01)
    have hi' : i ≤ 6 := by omega
    interval_cases i <;>
      simp only [benchmarks, List.getD_cons_zero, List.getD_cons_succ] <;>
      exact key _ _ (by norm_num) (by norm_num)

/-- Witness for C10 at a concrete input. -/
theorem payout_total_witness :
    1 ≤ 3 ∧ ((∃ r, payout 3 = some r) ∧
      ∀ i, i + 1 < benchmarks.length →
        Real.logb 10 ((benchmarks.getD (i + 1) (0, 0)).1 : ℝ) -
          Real.logb 10 ((benchmarks.getD i (0, 0)).1 : ℝ) ≠ 0) :=
  ⟨by decide, payout_total 3 (by decide)⟩

/-! ### payout at 750000 (claim C9) -/

theorem payout_750000_eq :
    payout 750000 = some (pyRound (segVal 500000 650 1000000 850 750000)) := by
  rfl

theorem seg750_eq : segVal 500000 650 1000000 850 750000 =
    650 + Real.logb 10 (3 / 2) / Real.logb 10 2 * 200 := by
  unfold segVal
  push_cast
  have h1 : Real.logb 10 (750000 : ℝ) - Real.logb 10 (500000 : ℝ) =
      Real.logb 10 (3 / 2) := by
    rw [← Real.logb_div (by norm_num) (by norm_num)]
    norm_num
  have h2 : Real.logb 10 (1000000 : ℝ) - Real.logb 10 (500000 : ℝ) =
      Real.logb 10 2 := by
    rw [← Real.logb_div (by norm_num) (by norm_num)]
    norm_num
  rw [h1, h2]
  ring

theorem seg750_bounds :
    750 < segVal 500000 650 1000000 850 750000 ∧
    segVal 500000 650 1000000 850 750000 < 770 := by
  have hq2 : 0 < Real.logb 10 2 := Real.logb_pos (by norm_num) (by norm_num)
  have hlo : Real.logb 10 2 < 2 * Real.logb 10 (3 / 2) := by
    have hpow : Real.logb 10 ((3 / 2 : ℝ) ^ (2 : ℕ)) =
        (2 : ℕ) * Real.logb 10 (3 / 2) := Real.logb_pow 10 (3 / 2) 2
    have hlt : Real.logb 10 (2 : ℝ) < Real.logb 10 ((3 / 2 : ℝ) ^ (2 : ℕ)) := by
      apply Real.logb_lt_logb (by norm_num) (by norm_num)
      norm_num
    rw [hpow] at hlt
    push_cast at hlt
    linarith
  have hhi : 5 * Real.logb 10 (3 / 2) < 3 * Real.logb 10 2 := by
    have hpow5 : Real.logb 10 ((3 / 2 : ℝ) ^ (5 : ℕ)) =
        (5 : ℕ) * Real.logb 10 (3 / 2) := Real.logb_pow 10 (3 / 2) 5
    have hpow3 : Real.logb 10 ((2 : ℝ) ^ (3 : ℕ)) =
        (3 : ℕ) * Real.logb 10 2 := Real.logb_pow 10 2 3
    have hlt : Real.logb 10 ((3 / 2 : ℝ) ^ (5 : ℕ)) <
        Real.logb 10 ((2 : ℝ) ^ (3 : ℕ)) := by
      apply Real.logb_lt_logb (by norm_num) (by positivity)
      norm_num
    rw [hpow5, hpow3] at hlt
    push_cast at hlt
    linarith
  have hq_lo : (1 / 2 : ℝ) < Real.logb 10 (3 / 2) / Real.logb 10 2 := by
    rw [lt_div_iff₀ hq2]
    linarith
  have hq_hi : Real.logb 10 (3 / 2) / Real.logb 10 2 < 3 / 5 := by
    rw [div_lt_iff₀ hq2]
    linarith
  rw [seg750_eq]
  constructor <;> linarith

theorem payout750_bounds :
    750 ≤ (payout 750000).getD 0 ∧ (payout 750000).getD 0 ≤ 770 := by
  rw [payout_750000_eq]
  simp only [Option.getD_some]
  obtain ⟨hlo, hhi⟩ := seg750_bounds
  constructor
  · have h1 : (750 : ℤ) ≤ ⌊segVal 500000 650 1000000 850 750000⌋ := by
      apply Int.le_floor.2
      push_cast
      linarith
    exact le_trans h1 (pyRound_ge_floor _)
  · have h2 : ⌊segVal 500000 650 1000000 850 750000⌋ < 770 := by
      apply Int.floor_lt.2
      push_cast
      linarith
    have := pyRound_le_floor_add_one (segVal 500000 650 1000000 850 750000)
    omega

/-- C9 counterexample: `payout(750000)` does NOT lie strictly between 850
and 2500 — the value is at most 770, because 750000 is actually bracketed
by the benchmarks (500000, 650) and (1000000, 850), not by (1000000, 850)
and (5000000, 2500). -/
theorem payout750_not_between :
    ¬ (850 < (payout 750000).getD 0 ∧ (payout 750000).getD 0 < 2500) := by
  have := payout750_bounds
  omega

/-- C9 amended: `payout(750000)` is the rounded-to-nearest-integer
log-linear interpolation on the segment from (500000, 650) to
(1000000, 850) — the pair that actually brackets 750000 — and lies
strictly between 650 and 850. -/
theorem payout750_amended :
    payout 750000 = some (pyRound (segVal 500000 650 1000000 850 750000)) ∧
    650 < (payout 750000).getD 0 ∧ (payout 750000).getD 0 < 850 := by
  refine ⟨payout_750000_eq, ?_, ?_⟩ <;>
    · have := payout750_bounds
      omega

/-! ### chart data (claim C8) -/

/-- Python `range(start, stop, step)` for a positive step: the element
`start + step * i` for each `i` below `ceil((stop - start) / step)`. -/
def pyRange (start stop step : ℕ) : List ℕ :=
  (List.range ((stop - start + step - 1) / step)).map (fun i => start + step * i)

/-- The chart-data loop of the `/api/payout/chart-data` script
(`src/server.js` lines 281-283): `for views in range(start, end + 1, step):
chart_data.append({"views": views, "payout": payout(views)})`. -/
noncomputable def chart_data (start endv step : ℕ) : List (ℕ × Option ℤ) :=
  (pyRange start (endv + 1) step).map (fun v => (v, payout v))

theorem chart_data_eval : chart_data 10000 50000 10000 =
    [(10000, payout 10000), (20000, payout 20000), (30000, payout 30000),
     (40000, payout 40000), (50000, payout 50000)] := by
  have h5 : (50000 + 1 - 10000 + 10000 - 1) / 10000 = 5 := by norm_num
  simp [chart_data, pyRange, h5, List.range_succ]

/-- C8 counterexample: with `start=10000, end=50000, step=10000` the
generated evaluation points are NOT `{10000, 25000, 35000, 45000, 50000}`
— the loop steps by 10000 from 10000, producing 20000, 30000, 40000 as the
interior points. -/
theorem chart_data_points_ne_claimed :
    (chart_data 10000 50000 10000).map Prod.fst ≠
      [10000, 25000, 35000, 45000, 50000] := by
  rw [chart_data_eval]
  decide

/-- C8 amended: chart-data generation with `start=10000, end=50000,
step=10000` returns exactly the points at views 10000, 20000, 30000,
40000, 50000 — one per step boundary, inclusive of `end` — and each
point's payout is a direct `payout()` call on the same views value. -/
theorem chart_data_amended :
    chart_data 10000 50000 10000 =
      [(10000, payout 10000), (20000, payout 20000), (30000, payout 30000),
       (40000, payout 40000), (50000, payout 50000)] ∧
    (chart_data 10000 50000 10000).map Prod.fst =
      [10000, 20000, 30000, 40000, 50000] := by
  refine ⟨chart_data_eval, ?_⟩
  rw [chart_data_eval]
  rfl

/-! ### the process bridge `runPythonScript` (claim C4) -/

/-- Termination event of a worker process: either the `close` event with
the exit code and the accumulated output chunks, or the `error` event
raised when the process could not be launched. -/
inductive ProcEvent where
  | close (code : ℤ) (outChunks errChunks : List String)
  | spawnErr (msg : String)

/-- Accumulation of stream chunks (`stdout += data.toString()` /
`stderr += data.toString()`, `src/server.js` lines 24-30). -/
def accum (chunks : List String) : String := chunks.foldl (· ++ ·) ""

/-- The promise settlement logic of `runPythonScript` (`src/server.js`
lines 17-49): on `close` with code 0 resolve with the accumulated stdout;
on a nonzero code reject with the accumulated stderr if non-empty
(JavaScript `stderr || ...`: the empty string is falsy) and otherwise with
`Process exited with code N`; on a spawn `error` event reject with the
fault description. -/
def runPythonScript : ProcEvent → Except String String
  | ProcEvent.close code outChunks errChunks =>
      if code = 0 then Except.ok (accum outChunks)
      else Except.error
        (if accum errChunks = "" then "Process exited with code " ++ toString code
         else accum errChunks)
  | ProcEvent.spawnErr msg => Except.error msg

/-- C4: the bridge resolves with accumulated stdout on exit code 0; on a
nonzero exit it fails with the accumulated stderr when non-empty and
otherwise with the generic exit-code message; a launch-time fault fails
with the underlying fault description. -/
theorem runPythonScript_spec (code : ℤ) (outChunks errChunks : List String)
    (msg : String) :
    (code = 0 →
      runPythonScript (ProcEvent.close code outChunks errChunks) =
        Except.ok (accum outChunks)) ∧
    (code ≠ 0 → accum errChunks ≠ "" →
      runPythonScript (ProcEvent.close code outChunks errChunks) =
        Except.error (accum errChunks)) ∧
    (code ≠ 0 → accum errChunks = "" →
      runPythonScript (ProcEvent.close code outChunks errChunks) =
        Except.error ("Process exited with code " ++ toString code)) ∧
    runPythonScript (ProcEvent.spawnErr msg) = Except.error msg := by
  refine ⟨fun h0 => ?_, fun hn he => ?_, fun hn he => ?_, rfl⟩
  · simp [runPythonScript, h0]
  · simp [runPythonScript, hn, he]
  · simp [runPythonScript, hn, he]

/-- Witness for C4 on concrete events: a clean exit with chunked output, a
nonzero exit with diagnostic text, a nonzero exit with empty diagnostics,
and a launch fault. -/
theorem runPythonScript_spec_witness :
    ((0 : ℤ) = 0 ∧
      runPythonScript (ProcEvent.close 0 ["a", "b"] []) =
        Except.ok (accum ["a", "b"])) ∧
    ((2 : ℤ) ≠ 0 ∧ accum ["", "boom"] ≠ "" ∧
      runPythonScript (ProcEvent.close 2 [] ["", "boom"]) =
        Except.error (accum ["", "boom"])) ∧
    ((3 : ℤ) ≠ 0 ∧ accum ([] : List String) = "" ∧
      runPythonScript (ProcEvent.close 3 ["x"] []) =
        Except.error ("Process exited with code " ++ toString (3 : ℤ))) ∧
    runPythonScript (ProcEvent.spawnErr "spawn python3 ENOENT") =
      Except.error "spawn python3 ENOENT" :=
  ⟨⟨rfl, (runPythonScript_spec 0 ["a", "b"] [] "").1 rfl⟩,
   ⟨by decide, by decide,
    (runPythonScript_spec 2 [] ["", "boom"] "").2.1 (by decide) (by decide)⟩,
   ⟨by decide, rfl,
    (runPythonScript_spec 3 ["x"] [] "").2.2.1 (by decide) rfl⟩,
   (runPythonScript_spec 0 [] [] "spawn python3 ENOENT").2.2.2⟩

/-! ### handler effect traces (claim C1) -/

/-- Outcome of awaiting `runPythonScript` inside a handler. -/
inductive RunResult where
  | ok (stdout : String)
  | err (msg : String)
deriving DecidableEq

/-- Observable effects of a scripted request handler. -/
inductive HEvent where
  | writeFile (name : String)
  | runScript (name : String)
  | removeFile (name : String)
  | respond (status : ℕ) (success : Bool)
deriving DecidableEq

/-- The effect trace of the common handler body shared by the
payout-calculate and scraper endpoints (`src/server.js` lines 163-177,
225-239, 340-354, 443-457):
`await fs.writeFile(name, script); const output = await
runPythonScript(name); const result = JSON.parse(output.trim());
await fs.remove(name); res.json({success: true, ...})` inside a
`try`, with `catch (error)` responding 500 and performing no removal.
`decodeOk` is whether `JSON.parse` succeeds on the worker's output. -/
def scriptedHandlerTrace (tempName : String) (run : RunResult)
    (decodeOk : Bool) : List HEvent :=
  HEvent.writeFile tempName :: HEvent.runScript tempName ::
    match run with
    | RunResult.err _ => [HEvent.respond 500 false]
    | RunResult.ok _ =>
        if decodeOk then [HEvent.removeFile tempName, HEvent.respond 200 true]
        else [HEvent.respond 500 false]

/-- C1 is violated: once the temp script is written, it is removed only on
the fully successful path.  When the worker fails (or its output fails to
decode) the handler jumps to `catch` before reaching `fs.remove`, leaving
the artifact on disk; removal does happen when everything succeeds. -/
theorem temp_artifact_leaked_on_failure :
    scriptedHandlerTrace "temp_payout.py" (RunResult.err "exit 1") true =
      [HEvent.writeFile "temp_payout.py", HEvent.runScript "temp_payout.py",
       HEvent.respond 500 false] ∧
    HEvent.removeFile "temp_payout.py" ∉
      scriptedHandlerTrace "temp_payout.py" (RunResult.err "exit 1") true ∧
    HEvent.removeFile "temp_payout.py" ∉
      scriptedHandlerTrace "temp_payout.py" (RunResult.ok "not json") false ∧
    HEvent.removeFile "temp_payout.py" ∈
      scriptedHandlerTrace "temp_payout.py" (RunResult.ok "{}") true := by
  refine ⟨rfl, ?_, ?_, ?_⟩ <;> decide

/-! ### temp artifact names (claim C3) -/

/-- The eight scripted endpoints of `src/server.js`. -/
inductive Endpoint where
  | benchmarksEp
  | getCalculate
  | postCalculate
  | chartDataEp
  | advanced
  | advancedMultiple
  | comprehensive
  | comprehensiveMultiple
deriving DecidableEq

/-- The on-disk artifact name each endpoint passes to `fs.writeFile`
(`src/server.js` lines 101, 163, 225, 288, 340, 392, 443, 496): a fixed
name per template, with no per-request component. -/
def tempFileName : Endpoint → String
  | Endpoint.benchmarksEp => "temp_benchmarks.py"
  | Endpoint.getCalculate => "temp_payout.py"
  | Endpoint.postCalculate => "temp_payout.py"
  | Endpoint.chartDataEp => "temp_chart.py"
  | Endpoint.advanced => "temp_advanced_scrape.py"
  | Endpoint.advancedMultiple => "temp_advanced_multiple.py"
  | Endpoint.comprehensive => "temp_comprehensive_scrape.py"
  | Endpoint.comprehensiveMultiple => "temp_comprehensive_multiple.py"

/-- C3 is violated: the artifact name is a function of the endpoint alone,
so any two acquisitions by the same endpoint — and even the GET and POST
calculate endpoints — observe the same on-disk name `temp_payout.py`. -/
theorem temp_names_collide :
    tempFileName Endpoint.getCalculate = tempFileName Endpoint.postCalculate ∧
    tempFileName Endpoint.getCalculate = "temp_payout.py" :=
  ⟨rfl, rfl⟩

/-! ### the script templater (claim C2) -/

/-- Split a character stream at newlines. -/
def splitLines (cs : List Char) : List (List Char) :=
  cs.foldr
    (fun c acc =>
      if c = '\n' then [] :: acc
      else
        match acc with
        | h :: t => (c :: h) :: t
        | [] => [[c]])
    [[]]

/-- Whether the first list is an initial segment of the second. -/
def leadsWith : List Char → List Char → Bool
  | [], _ => true
  | _ :: _, [] => false
  | a :: as, b :: bs => a == b && leadsWith as bs

/-- How the Python worker lexes the right-hand side of `url = "..."` from
the rendered script: a double-quoted string literal whose contents run to
the next `"`; any trailing text after the closing quote on that line is a
syntax error (`none`). -/
def parsePyStr : List Char → Option (List Char)
  | '"' :: rest =>
      let v := rest.takeWhile (fun c => c ≠ '"')
      match rest.drop v.length with
      | ['"'] => some v
      | _ => none
  | _ => none

/-- The value the worker would observe for the `url` variable: the script
must contain exactly one `url = ` assignment line holding a well-formed
string literal; otherwise the script's structure has been altered. -/
def workerUrlValue (script : List Char) : Option (List Char) :=
  match (splitLines script).filter (fun l => leadsWith ("url = ".data) l) with
  | [l] => parsePyStr (l.drop 6)
  | _ => none

/-- The `/api/scraper/advanced` script template (`src/server.js` lines
329-338): the caller-supplied `url` is spliced raw into the template
literal at `url = "${url}"`. -/
def renderAdvancedScript (url : List Char) : List Char :=
  ("\nimport sys\nimport json\nsys.path.append(\x27.\x27)\nfrom advanced_scraper import scrape_listing\n\nurl = \"").data
    ++ url ++
  ("\"\nresult = scrape_listing(url)\nprint(json.dumps(result))\n").data

/-- C2 is violated: a url containing a quote character is spliced raw into
the script, altering its structure — extracting `url` inside the worker no
longer yields the original value (the rendered line is a Python syntax
error), whereas a quote-free url still round-trips. -/
theorem url_injection_breaks_roundtrip :
    workerUrlValue (renderAdvancedScript ("ab\"cd".data)) = none ∧
    some ("ab\"cd".data) ≠ (none : Option (List Char)) ∧
    workerUrlValue (renderAdvancedScript ("https://x.y/z".data)) =
      some ("https://x.y/z".data) := by
  refine ⟨by decide, by decide, by decide⟩

/-! ### the benchmarks endpoint (claim C5) -/

/-- Python repr of an int pair, as produced by `print(f'{benchmarks}')`
for one tuple. -/
def pyReprPair (p : ℕ × ℕ) : String :=
  "(" ++ Nat.repr p.1 ++ ", " ++ Nat.repr p.2 ++ ")"

/-- Join strings with a separator. -/
def joinSep (sep : String) : List String → String
  | [] => ""
  | [s] => s
  | s :: r :: t => s ++ sep ++ joinSep sep (r :: t)

/-- Python repr of a list of int tuples, as produced by
`print(f'{benchmarks}')` (`src/server.js` line 98). -/
def pyReprList (l : List (ℕ × ℕ)) : String :=
  "[" ++ joinSep ", " (l.map pyReprPair) ++ "]"

/-- The stdout of the `temp_benchmarks.py` worker: the repr plus the
trailing newline added by `print`. -/
def benchmarksScriptOutput : List Char := (pyReprList benchmarks).data ++ ['\n']

/-- JavaScript `String.prototype.trim`. -/
def trimChars (cs : List Char) : List Char :=
  ((cs.dropWhile Char.isWhitespace).reverse.dropWhile Char.isWhitespace).reverse

/-- Parse a decimal numeral. -/
def parseNatChars (cs : List Char) : Option (ℕ × List Char) :=
  let ds := cs.takeWhile Char.isDigit
  if ds.isEmpty then none
  else some (ds.foldl (fun n c => 10 * n + (c.toNat - 48)) 0, cs.drop ds.length)

/-- A JavaScript value of the shapes relevant here: a number, or a
two-element numeric array. -/
inductive JsVal where
  | num (n : ℕ)
  | pairArr (a b : ℕ)
deriving DecidableEq

/-- JavaScript evaluation of a parenthesized pair `(a, b)`: the
parentheses hold a comma expression, whose value is the RIGHT operand
`b` as a number — not a two-element array. -/
def parseParenGroup (cs : List Char) : Option (JsVal × List Char) :=
  match cs with
  | '(' :: cs1 =>
      match parseNatChars cs1 with
      | some (_, cs2) =>
          match cs2 with
          | ',' :: ' ' :: cs3 =>
              match parseNatChars cs3 with
              | some (b, cs4) =>
                  match cs4 with
                  | ')' :: cs5 => some (JsVal.num b, cs5)
                  | _ => none
              | none => none
          | _ => none
      | none => none
  | _ => none

/-- Parse the remaining `(a, b), (c, d), ...]` groups (fuel-bounded). -/
def parseGroups : ℕ → List Char → Option (List JsVal)
  | 0, _ => none
  | fuel + 1, cs =>
      match parseParenGroup cs with
      | some (b, cs1) =>
          match cs1 with
          | [']'] => some [b]
          | ',' :: ' ' :: cs2 =>
              match parseGroups fuel cs2 with
              | some bs => some (b :: bs)
              | none => none
          | _ => none
      | none => none

/-- JavaScript `eval` of the Python tuple-list repr `[(a, b), ...]`: an
array literal whose elements are comma expressions, i.e. an array of the
second components as plain numbers. -/
def jsEvalTupleList (cs : List Char) : Option (List JsVal) :=
  match cs with
  | '[' :: cs1 => parseGroups (cs1.length + 1) cs1
  | _ => none

/-- JavaScript array destructuring `[views, payout]` of one value: a
two-element array yields its components, while a number is not iterable,
so destructuring it throws a TypeError (`none`). -/
def jsDestructure : JsVal → Option (ℕ × ℕ)
  | JsVal.pairArr a b => some (a, b)
  | JsVal.num _ => none

/-- `benchmarks.map(([views, payout]) => ({views, payout}))`
(`src/server.js` line 108): destructure every element of the evaluated
array; the first TypeError aborts the whole expression. -/
def jsMapDestructure (elems : List JsVal) : Option (List (ℕ × ℕ)) :=
  elems.mapM jsDestructure

/-- The response envelope every handler produces. -/
structure Envelope (α : Type) where
  success : Bool
  data : Option α
  error : Option String
deriving DecidableEq

/-- The `/api/payout/benchmarks` handler (`src/server.js` lines 82-116):
run the worker, `eval` its trimmed output as JavaScript, map the result
through pair destructuring, and respond 200 on success; any thrown error
is caught and answered with a 500 failure envelope. -/
def benchmarksHandler : Envelope (List (ℕ × ℕ)) :=
  match jsEvalTupleList (trimChars benchmarksScriptOutput) with
  | some elems =>
      match jsMapDestructure elems with
      | some rs => ⟨true, some rs, none⟩
      | none => ⟨false, none, some "is not iterable"⟩
  | none => ⟨false, none, some "SyntaxError"⟩

/-- C5 is violated: the worker prints the Python repr
`[(10000, 45), ...]`, but `eval` reads it as JavaScript, where each
parenthesized pair is a comma expression evaluating to its second
component — `[45, 80, 160, 260, 370, 650, 850, 2500]` — and the
subsequent `[views, payout]` destructuring of a number throws, so the
endpoint always answers a failure envelope, never the benchmark table. -/
theorem benchmarks_endpoint_bug :
    jsEvalTupleList (trimChars benchmarksScriptOutput) =
      some ([45, 80, 160, 260, 370, 650, 850, 2500].map JsVal.num) ∧
    benchmarksHandler.success = false ∧
    benchmarksHandler.data = none := by
  refine ⟨by decide, ?_, ?_⟩ <;> rfl

end Server
